import Mathlib

/-
Verification development for a small interpreter (file `Interpreter.py`):
a lexer, a recursive-descent parser, and a tree-walking evaluator for a
language of integer assignment statements.

Modelling conventions:
* Python strings are `String`, Python ints are `Int` (unbounded, as in Python).
* The lexer's cursor over `self.text` is modelled by the list of characters
  not yet consumed (the lexer only ever moves forward).
* Python's Unicode character classes (`isspace`, `isalpha`, `isdigit`,
  `isalnum`) are modelled by their ASCII restrictions; every token class and
  every program considered here is ASCII.
* Exceptions (`InterpreterError`, and the `IndexError` / `AttributeError`
  that CPython itself would raise on malformed data) are modelled by
  `Except String`, the error string carrying the message text.
* The parser's AST nodes are Python tuples holding strings, ints and other
  tuples; they are modelled by the inductive type `PyObj` below, so that the
  evaluator's defensive branches ("Invalid AST node.",
  "Unknown node structure in evaluation.") are expressible.
* The unbounded `while` loops of `Parser` are modelled with an explicit fuel
  parameter; the top-level wrapper supplies fuel that is large enough, and
  every universally quantified theorem quantifies over the fuel.
-/

/-- A Python value as it occurs in this program's AST: a string, an integer,
or a tuple of such values. (`Interpreter.py` tags AST nodes with strings and
builds them as tuples.) -/
inductive PyObj where
  | vStr : String → PyObj
  | vInt : Int → PyObj
  | vTup : List PyObj → PyObj

/-- A token, as in class `Token` of `Interpreter.py`: a type tag and a value
string. -/
structure Token where
  ttype : String
  value : String
deriving DecidableEq

/-- ASCII restriction of Python's `str.isspace`. -/
def pyIsSpace (c : Char) : Bool :=
  c = ' ' || c = '\t' || c = '\n' || c = '\r' || c.toNat = 11 || c.toNat = 12

/-- ASCII restriction of Python's `str.isalpha`. -/
def pyIsAlpha (c : Char) : Bool :=
  ('a' ≤ c && c ≤ 'z') || ('A' ≤ c && c ≤ 'Z')

/-- ASCII restriction of Python's `str.isdigit`. -/
def pyIsDigit (c : Char) : Bool :=
  '0' ≤ c && c ≤ '9'

/-- ASCII restriction of Python's `str.isalnum`. -/
def pyIsAlnum (c : Char) : Bool :=
  pyIsAlpha c || pyIsDigit c

/-- Characters allowed after the first one of an identifier
(`Interpreter.py` line 89: `isalnum() or == '_'`). -/
def identChar (c : Char) : Bool :=
  pyIsAlnum c || c = '_'

/-- Python's `int(...)` applied to a literal token's text: the usual base-10
reading of a digit string. The scanner only produces non-empty all-digit
texts for literal tokens, and on those this fold is exactly Python's `int`. -/
def int_of_str (s : String) : Int :=
  (s.data.foldl (fun a c => 10 * a + (c.toNat - '0'.toNat)) 0 : Nat)

namespace Lexer

/-- `Lexer.next_token` (`Interpreter.py` lines 55-107) on the not yet consumed
characters: skip whitespace, then classify the current character; returns the
token together with the characters remaining after it. -/
def next_token (cs0 : List Char) : Except String (Token × List Char) :=
  match cs0.dropWhile pyIsSpace with
  | [] => .ok (⟨"EOF", ""⟩, [])
  | c :: rest =>
    if c = '+' then .ok (⟨"+", "+"⟩, rest)
    else if c = '-' then .ok (⟨"-", "-"⟩, rest)
    else if c = '*' then .ok (⟨"*", "*"⟩, rest)
    else if c = '(' then .ok (⟨"(", "("⟩, rest)
    else if c = ')' then .ok (⟨")", ")"⟩, rest)
    else if c = '=' then .ok (⟨"=", "="⟩, rest)
    else if c = ';' then .ok (⟨";", ";"⟩, rest)
    else if pyIsAlpha c || c = '_' then
      .ok (⟨"IDENTIFIER", String.mk (c :: rest.takeWhile identChar)⟩,
           rest.dropWhile identChar)
    else if pyIsDigit c then
      if c ≠ '0' then
        .ok (⟨"LITERAL", String.mk (c :: rest.takeWhile pyIsDigit)⟩,
             rest.dropWhile pyIsDigit)
      else
        match rest with
        | d :: _ =>
          if pyIsDigit d then
            .error "Lexical error: Invalid number format (leading zero)."
          else .ok (⟨"LITERAL", "0"⟩, rest)
        | [] => .ok (⟨"LITERAL", "0"⟩, [])
    else .error ("Lexical error: Unexpected character: " ++ c.toString)

/-- The loop of `Lexer.tokenize` (`Interpreter.py` lines 109-117), with fuel:
collect tokens until the end-of-input token is produced. -/
def tokenizeF : Nat → List Char → Except String (List Token)
  | 0, _ => .error "out of fuel"
  | n + 1, cs =>
    match next_token cs with
    | .error e => .error e
    | .ok (t, rest) =>
      if t.ttype = "EOF" then .ok [t]
      else
        match tokenizeF n rest with
        | .error e => .error e
        | .ok ts => .ok (t :: ts)

/-- `Lexer.tokenize` on the full input text. Each non-EOF token consumes at
least one character, so `text.length + 1` rounds of the loop always suffice. -/
def tokenize (text : String) : Except String (List Token) :=
  tokenizeF (text.length + 1) text.toList

end Lexer

/-- An assignment statement as produced by `Parser.assignment`
(`Interpreter.py` line 165: the tuple `('assign', lhs.value, exp)`; the
`'assign'` tag is never inspected, the other two fields are). -/
structure Assign where
  target : String
  exp : PyObj

namespace Parser

/-- `Parser.peek` (`Interpreter.py` lines 135-138): the token at the current
position, if any. The token list never changes, so it is passed separately
from the position. -/
def peekT (tokens : List Token) (pos : Nat) : Option Token :=
  tokens[pos]?

/-- `Parser.consume` (`Interpreter.py` lines 140-147): `none` for Python's
`ttype=None` default (no expected kind). -/
def consume (tokens : List Token) (pos : Nat) (want : Option String) :
    Except String (Token × Nat) :=
  match peekT tokens pos with
  | none => .error "Syntax error: Unexpected end of input."
  | some t =>
    match want with
    | none => .ok (t, pos + 1)
    | some ty =>
      if t.ttype = ty then .ok (t, pos + 1)
      else .error ("Syntax error: Expected " ++ ty ++ ", got " ++ t.ttype)

mutual

/-- `Parser.fact` (`Interpreter.py` lines 193-216). When `peek()` returns
`None`, line 196 would dereference `None.ttype`; that crash is modelled as an
error. -/
def fact : Nat → List Token → Nat → Except String (PyObj × Nat)
  | 0, _, _ => .error "out of fuel"
  | n + 1, tokens, pos =>
    match peekT tokens pos with
    | none => .error "AttributeError: NoneType has no attribute ttype"
    | some token =>
      if token.ttype = "(" then
        match consume tokens pos (some "(") with
        | .error e => .error e
        | .ok (_, pos1) =>
          match exp n tokens pos1 with
          | .error e => .error e
          | .ok (node, pos2) =>
            match consume tokens pos2 (some ")") with
            | .error e => .error e
            | .ok (_, pos3) => .ok (node, pos3)
      else if token.ttype = "+" then
        match consume tokens pos (some "+") with
        | .error e => .error e
        | .ok (_, pos1) =>
          match fact n tokens pos1 with
          | .error e => .error e
          | .ok (node, pos2) => .ok (.vTup [.vStr "+", node], pos2)
      else if token.ttype = "-" then
        match consume tokens pos (some "-") with
        | .error e => .error e
        | .ok (_, pos1) =>
          match fact n tokens pos1 with
          | .error e => .error e
          | .ok (node, pos2) => .ok (.vTup [.vStr "-", node], pos2)
      else if token.ttype = "LITERAL" then
        match consume tokens pos (some "LITERAL") with
        | .error e => .error e
        | .ok (t, pos1) => .ok (.vTup [.vStr "lit", .vInt (int_of_str t.value)], pos1)
      else if token.ttype = "IDENTIFIER" then
        match consume tokens pos (some "IDENTIFIER") with
        | .error e => .error e
        | .ok (t, pos1) => .ok (.vTup [.vStr "var", .vStr t.value], pos1)
      else .error "Syntax error: Invalid factor"
  termination_by structural n => n

/-- The `while` loop of `Parser.term` (`Interpreter.py` lines 183-191),
carrying the node built so far. -/
def termLoop : Nat → List Token → Nat → PyObj → Except String (PyObj × Nat)
  | 0, _, _, _ => .error "out of fuel"
  | n + 1, tokens, pos, node =>
    match peekT tokens pos with
    | some token =>
      if token.ttype = "*" then
        match consume tokens pos (some "*") with
        | .error e => .error e
        | .ok (_, pos1) =>
          match fact n tokens pos1 with
          | .error e => .error e
          | .ok (right, pos2) => termLoop n tokens pos2 (.vTup [.vStr "*", node, right])
      else .ok (node, pos)
    | none => .ok (node, pos)
  termination_by structural n => n

/-- `Parser.term` (`Interpreter.py` lines 180-191). -/
def term : Nat → List Token → Nat → Except String (PyObj × Nat)
  | 0, _, _ => .error "out of fuel"
  | n + 1, tokens, pos =>
    match fact n tokens pos with
    | .error e => .error e
    | .ok (node, pos1) => termLoop n tokens pos1 node
  termination_by structural n => n

/-- The `while` loop of `Parser.exp` (`Interpreter.py` lines 170-177). The
operator tag stored in the node is the consumed token's `value` (line 173). -/
def expLoop : Nat → List Token → Nat → PyObj → Except String (PyObj × Nat)
  | 0, _, _, _ => .error "out of fuel"
  | n + 1, tokens, pos, node =>
    match peekT tokens pos with
    | some token =>
      if token.ttype = "+" ∨ token.ttype = "-" then
        match consume tokens pos none with
        | .error e => .error e
        | .ok (opTok, pos1) =>
          match term n tokens pos1 with
          | .error e => .error e
          | .ok (right, pos2) =>
            expLoop n tokens pos2 (.vTup [.vStr opTok.value, node, right])
      else .ok (node, pos)
    | none => .ok (node, pos)
  termination_by structural n => n

/-- `Parser.exp` (`Interpreter.py` lines 167-178). -/
def exp : Nat → List Token → Nat → Except String (PyObj × Nat)
  | 0, _, _ => .error "out of fuel"
  | n + 1, tokens, pos =>
    match term n tokens pos with
    | .error e => .error e
    | .ok (node, pos1) => expLoop n tokens pos1 node
  termination_by structural n => n

end

/-- `Parser.assignment` (`Interpreter.py` lines 159-165). -/
def assignment (n : Nat) (tokens : List Token) (pos : Nat) :
    Except String (Assign × Nat) :=
  match consume tokens pos (some "IDENTIFIER") with
  | .error e => .error e
  | .ok (lhs, pos1) =>
    match consume tokens pos1 (some "=") with
    | .error e => .error e
    | .ok (_, pos2) =>
      match exp n tokens pos2 with
      | .error e => .error e
      | .ok (e, pos3) =>
        match consume tokens pos3 (some ";") with
        | .error e => .error e
        | .ok (_, pos4) => .ok (⟨lhs.value, e⟩, pos4)

/-- The loop of `Parser.parse` (`Interpreter.py` lines 149-157), with fuel. -/
def parseF : Nat → List Token → Nat → Except String (List Assign)
  | 0, _, _ => .error "out of fuel"
  | n + 1, tokens, pos =>
    match peekT tokens pos with
    | none => .ok []
    | some t =>
      if t.ttype = "EOF" then .ok []
      else
        match assignment n tokens pos with
        | .error e => .error e
        | .ok (a, pos1) =>
          match parseF n tokens pos1 with
          | .error e => .error e
          | .ok rest => .ok (a :: rest)

/-- `Parser.parse` starting at position 0. The recursion depth of the
grammar on a token list is bounded by a small multiple of its length, so the
supplied fuel always suffices. -/
def parse (tokens : List Token) : Except String (List Assign) :=
  parseF (5 * tokens.length + 10) tokens 0

end Parser

namespace Interpreter

/-- The evaluator's variable table `self.vars`, a Python dict: an
association list in insertion order with unique keys. -/
abbrev Env := List (String × PyObj)

/-- Dict lookup by exact name. -/
def envLookup : Env → String → Option PyObj
  | [], _ => none
  | (k, v) :: rest, n => if k = n then some v else envLookup rest n

/-- Dict assignment `self.vars[k] = v`: overwrite in place if the key is
present, otherwise append (Python dicts preserve insertion order). -/
def envInsert : Env → String → PyObj → Env
  | [], k, v => [(k, v)]
  | (k', v') :: rest, k, v =>
    if k' = k then (k, v) :: rest else (k', v') :: envInsert rest k v

/-- Python's `str(...)` as used in this program's f-strings. Parser-produced
data only ever puts strings and ints into messages and report lines; the
tuple case is unreachable there and abbreviated. -/
def pyStr : PyObj → String
  | .vStr s => s
  | .vInt n => toString n
  | .vTup _ => "<tuple>"

/-- Python's unary `-` on a value (`Interpreter.py` line 249). Only integers
are ever negated by this program; any other operand would raise `TypeError`. -/
def pyNeg : PyObj → Except String PyObj
  | .vInt n => .ok (.vInt (-n))
  | _ => .error "TypeError: bad operand type for unary -"

/-- Python's binary `+` (`Interpreter.py` line 257). Parser-produced trees
only ever add integers; Python's string/tuple concatenation is unreachable
here and modelled as a `TypeError`. -/
def pyAdd : PyObj → PyObj → Except String PyObj
  | .vInt a, .vInt b => .ok (.vInt (a + b))
  | _, _ => .error "TypeError: unsupported operand type(s) for +"

/-- Python's binary `-` (`Interpreter.py` line 259). -/
def pySub : PyObj → PyObj → Except String PyObj
  | .vInt a, .vInt b => .ok (.vInt (a - b))
  | _, _ => .error "TypeError: unsupported operand type(s) for -"

/-- Python's binary `*` (`Interpreter.py` line 261). Sequence repetition on
non-integer operands is unreachable here and modelled as a `TypeError`. -/
def pyMul : PyObj → PyObj → Except String PyObj
  | .vInt a, .vInt b => .ok (.vInt (a * b))
  | _, _ => .error "TypeError: unsupported operand type(s) for *"

/-- `Interpreter.eval_exp` (`Interpreter.py` lines 224-263). Match arms are
in the order of the Python `if` chain, so the first matching arm is the
branch Python takes:
* `('lit', x, ...)` returns `node[1]` (line 232); a bare `('lit',)` would
  raise `IndexError`;
* `('var', key, ...)` looks `node[1]` up in `self.vars` (lines 235-239); a
  non-string key is never a key of the string-keyed dict, so it falls to the
  uninitialized-variable error with the key interpolated;
* string-tagged tuples of the right tag and length are unary (lines 243-249)
  or binary (lines 253-261) operations;
* any other tuple reaches line 263, and any non-tuple line 226. -/
def eval_exp (env : Env) : PyObj → Except String PyObj
  | .vTup (.vStr "lit" :: x :: _) => .ok x
  | .vTup [.vStr "lit"] => .error "IndexError: tuple index out of range"
  | .vTup (.vStr "var" :: key :: _) =>
    match key with
    | .vStr name =>
      match envLookup env name with
      | some v => .ok v
      | none => .error ("Uninitialized variable: " ++ name)
    | other => .error ("Uninitialized variable: " ++ pyStr other)
  | .vTup [.vStr "var"] => .error "IndexError: tuple index out of range"
  | .vTup [.vStr "+", e1] => eval_exp env e1
  | .vTup [.vStr "-", e1] =>
    match eval_exp env e1 with
    | .error e => .error e
    | .ok v => pyNeg v
  | .vTup [.vStr "+", l, r] =>
    match eval_exp env l with
    | .error e => .error e
    | .ok a =>
      match eval_exp env r with
      | .error e => .error e
      | .ok b => pyAdd a b
  | .vTup [.vStr "-", l, r] =>
    match eval_exp env l with
    | .error e => .error e
    | .ok a =>
      match eval_exp env r with
      | .error e => .error e
      | .ok b => pySub a b
  | .vTup [.vStr "*", l, r] =>
    match eval_exp env l with
    | .error e => .error e
    | .ok a =>
      match eval_exp env r with
      | .error e => .error e
      | .ok b => pyMul a b
  | .vTup [] => .error "IndexError: tuple index out of range"
  | .vTup _ => .error "Unknown node structure in evaluation."
  | _ => .error "Invalid AST node."
  termination_by structural e => e

/-- The assignment loop of `Interpreter.run` (`Interpreter.py` lines
265-267): evaluate each right-hand side in the current environment, then
bind the target. -/
def runAssigns : List Assign → Env → Except String Env
  | [], env => .ok env
  | a :: rest, env =>
    match eval_exp env a.exp with
    | .error e => .error e
    | .ok v => runAssigns rest (envInsert env a.target v)

/-- Strict lexicographic order on strings by code point, Python's `<` on
`str` (restricted to the ASCII names occurring here). -/
def strLt : List Char → List Char → Bool
  | [], [] => false
  | [], _ :: _ => true
  | _ :: _, [] => false
  | a :: as, b :: bs =>
    if a.toNat < b.toNat then true
    else if b.toNat < a.toNat then false
    else strLt as bs

/-- Non-strict comparison used by the sort below: `a ≤ b` iff `¬ b < a`. -/
def strLe (a b : String) : Bool := ! strLt b.data a.data

/-- Insert a key into an already sorted list of keys. -/
def insertKey (k : String) : List String → List String
  | [] => [k]
  | x :: xs => if strLe k x then k :: x :: xs else x :: insertKey k xs

/-- Python's `sorted(...)` on a list of distinct names: insertion sort by
`strLe` (stability is irrelevant on distinct keys). -/
def sortKeys : List String → List String
  | [] => []
  | k :: ks => insertKey k (sortKeys ks)

/-- The report loop of `Interpreter.run` (`Interpreter.py` lines 268-269):
one printed line `f"{var} = {self.vars[var]}"` per key, keys sorted. The
keys iterated over are exactly the keys of the environment, so the lookup
always succeeds and the `getD` default is never used. -/
def report (env : Env) : List String :=
  (sortKeys (env.map Prod.fst)).map fun k =>
    k ++ " = " ++ pyStr ((envLookup env k).getD (.vInt 0))

/-- `Interpreter.run` (`Interpreter.py` lines 264-269), the printed lines
returned as a list. -/
def run (assignments : List Assign) : Except String (List String) :=
  match runAssigns assignments [] with
  | .error e => .error e
  | .ok env => .ok (report env)

end Interpreter

/-- `run_program` (`Interpreter.py` lines 272-278): the full pipeline,
returning the report lines that `Interpreter.run` prints. -/
def run_program (program : String) : Except String (List String) := do
  let tokens ← Lexer.tokenize program
  let assignments ← Parser.parse tokens
  Interpreter.run assignments

/-- The property of scanner-produced tokens that the parser's node tagging
relies on: a token whose type is `+` or `-` carries that same character as
its value (the parser stores `token.value` as the tag of binary nodes). -/
def tokGood (t : Token) : Prop :=
  (t.ttype = "+" → t.value = "+") ∧ (t.ttype = "-" → t.value = "-")

/-- Well-formed AST nodes: exactly the tuple shapes the parser can emit — a
literal, a variable, a unary `+`/`-` of length 2, or a binary `+`/`-`/`*` of
length 3. These are the shapes `Interpreter.eval_exp` handles before its
defensive branches. -/
def wf : PyObj → Bool
  | .vTup [.vStr "lit", .vInt _] => true
  | .vTup [.vStr "var", .vStr _] => true
  | .vTup [.vStr "+", e1] => wf e1
  | .vTup [.vStr "-", e1] => wf e1
  | .vTup [.vStr "+", l, r] => wf l && wf r
  | .vTup [.vStr "-", l, r] => wf l && wf r
  | .vTup [.vStr "*", l, r] => wf l && wf r
  | _ => false
  termination_by structural e => e

/-- Environments whose values are all integers, as produced by running
parser-emitted assignments. -/
def envWF (env : Interpreter.Env) : Prop :=
  ∀ p ∈ env, ∃ k : Int, p.2 = PyObj.vInt k


namespace Lexer

theorem dropWhile_len {p : Char → Bool} {l : List Char} :
    (l.dropWhile p).length ≤ l.length :=
  (List.dropWhile_sublist p).length_le

theorem next_token_spec {cs : List Char} {t : Token} {rest : List Char}
    (h : next_token cs = .ok (t, rest)) :
    ((t = ⟨"EOF", ""⟩ ∧ rest = []) ∨ (t.ttype ≠ "EOF" ∧ rest.length < cs.length))
    ∧ tokGood t := by
  have hdw : (cs.dropWhile pyIsSpace).length ≤ cs.length := dropWhile_len
  unfold next_token at h
  split at h
  case _ heq =>
    simp only [Except.ok.injEq, Prod.mk.injEq] at h
    obtain ⟨rfl, rfl⟩ := h
    exact ⟨.inl ⟨rfl, rfl⟩, by constructor <;> intro hx <;> simp at hx⟩
  case _ c r heq =>
    rw [heq] at hdw
    simp only [List.length_cons] at hdw
    have hr : r.length < cs.length := by omega
    have hrid : (r.dropWhile identChar).length ≤ r.length := dropWhile_len
    have hrdg : (r.dropWhile pyIsDigit).length ≤ r.length := dropWhile_len
    by_cases h1 : c = '+'
    · rw [if_pos h1] at h
      simp only [Except.ok.injEq, Prod.mk.injEq] at h
      obtain ⟨rfl, rfl⟩ := h
      exact ⟨.inr ⟨by simp, by omega⟩,
        by constructor <;> intro hx <;> first | rfl | exact absurd hx (by simp)⟩
    rw [if_neg h1] at h
    by_cases h2 : c = '-'
    · rw [if_pos h2] at h
      simp only [Except.ok.injEq, Prod.mk.injEq] at h
      obtain ⟨rfl, rfl⟩ := h
      exact ⟨.inr ⟨by simp, by omega⟩,
        by constructor <;> intro hx <;> first | rfl | exact absurd hx (by simp)⟩
    rw [if_neg h2] at h
    by_cases h3 : c = '*'
    · rw [if_pos h3] at h
      simp only [Except.ok.injEq, Prod.mk.injEq] at h
      obtain ⟨rfl, rfl⟩ := h
      exact ⟨.inr ⟨by simp, by omega⟩,
        by constructor <;> intro hx <;> first | rfl | exact absurd hx (by simp)⟩
    rw [if_neg h3] at h
    by_cases h4 : c = '('
    · rw [if_pos h4] at h
      simp only [Except.ok.injEq, Prod.mk.injEq] at h
      obtain ⟨rfl, rfl⟩ := h
      exact ⟨.inr ⟨by simp, by omega⟩,
        by constructor <;> intro hx <;> first | rfl | exact absurd hx (by simp)⟩
    rw [if_neg h4] at h
    by_cases h5 : c = ')'
    · rw [if_pos h5] at h
      simp only [Except.ok.injEq, Prod.mk.injEq] at h
      obtain ⟨rfl, rfl⟩ := h
      exact ⟨.inr ⟨by simp, by omega⟩,
        by constructor <;> intro hx <;> first | rfl | exact absurd hx (by simp)⟩
    rw [if_neg h5] at h
    by_cases h6 : c = '='
    · rw [if_pos h6] at h
      simp only [Except.ok.injEq, Prod.mk.injEq] at h
      obtain ⟨rfl, rfl⟩ := h
      exact ⟨.inr ⟨by simp, by omega⟩,
        by constructor <;> intro hx <;> first | rfl | exact absurd hx (by simp)⟩
    rw [if_neg h6] at h
    by_cases h7 : c = ';'
    · rw [if_pos h7] at h
      simp only [Except.ok.injEq, Prod.mk.injEq] at h
      obtain ⟨rfl, rfl⟩ := h
      exact ⟨.inr ⟨by simp, by omega⟩,
        by constructor <;> intro hx <;> first | rfl | exact absurd hx (by simp)⟩
    rw [if_neg h7] at h
    by_cases h8 : (pyIsAlpha c || c = '_') = true
    · rw [if_pos h8] at h
      simp only [Except.ok.injEq, Prod.mk.injEq] at h
      obtain ⟨rfl, rfl⟩ := h
      exact ⟨.inr ⟨by simp, by omega⟩,
        by constructor <;> intro hx <;> first | rfl | exact absurd hx (by simp)⟩
    rw [if_neg h8] at h
    by_cases h9 : pyIsDigit c = true
    · rw [if_pos h9] at h
      by_cases h10 : c ≠ '0'
      · rw [if_pos h10] at h
        simp only [Except.ok.injEq, Prod.mk.injEq] at h
        obtain ⟨rfl, rfl⟩ := h
        exact ⟨.inr ⟨by simp, by omega⟩,
          by constructor <;> intro hx <;> first | rfl | exact absurd hx (by simp)⟩
      rw [if_neg h10] at h
      split at h
      · rename_i d tail
        by_cases h11 : pyIsDigit d = true
        · rw [if_pos h11] at h
          exact absurd h (by simp)
        · rw [if_neg h11] at h
          simp only [Except.ok.injEq, Prod.mk.injEq] at h
          obtain ⟨rfl, rfl⟩ := h
          refine ⟨.inr ⟨by simp, by omega⟩, ?_⟩
          constructor <;> intro hx <;> first | rfl | exact absurd hx (by simp)
      · simp only [Except.ok.injEq, Prod.mk.injEq] at h
        obtain ⟨rfl, rfl⟩ := h
        refine ⟨.inr ⟨by simp, by omega⟩, ?_⟩
        constructor <;> intro hx <;> first | rfl | exact absurd hx (by simp)
    · rw [if_neg h9] at h
      exact absurd h (by simp)

end Lexer

namespace Lexer

/-- The scanner fails only with one of its two lexical-error messages: an
unexpected character, or a leading zero on a longer numeral. -/
theorem next_token_error_forms {cs : List Char} {m : String}
    (h : next_token cs = .error m) :
    (∃ c : Char, m = "Lexical error: Unexpected character: " ++ c.toString)
    ∨ m = "Lexical error: Invalid number format (leading zero)." := by
  unfold next_token at h
  split at h
  case _ heq => exact absurd h (by simp)
  case _ c r heq =>
    by_cases h1 : c = '+'
    · rw [if_pos h1] at h; exact absurd h (by simp)
    rw [if_neg h1] at h
    by_cases h2 : c = '-'
    · rw [if_pos h2] at h; exact absurd h (by simp)
    rw [if_neg h2] at h
    by_cases h3 : c = '*'
    · rw [if_pos h3] at h; exact absurd h (by simp)
    rw [if_neg h3] at h
    by_cases h4 : c = '('
    · rw [if_pos h4] at h; exact absurd h (by simp)
    rw [if_neg h4] at h
    by_cases h5 : c = ')'
    · rw [if_pos h5] at h; exact absurd h (by simp)
    rw [if_neg h5] at h
    by_cases h6 : c = '='
    · rw [if_pos h6] at h; exact absurd h (by simp)
    rw [if_neg h6] at h
    by_cases h7 : c = ';'
    · rw [if_pos h7] at h; exact absurd h (by simp)
    rw [if_neg h7] at h
    by_cases h8 : (pyIsAlpha c || c = '_') = true
    · rw [if_pos h8] at h; exact absurd h (by simp)
    rw [if_neg h8] at h
    by_cases h9 : pyIsDigit c = true
    · rw [if_pos h9] at h
      by_cases h10 : c ≠ '0'
      · rw [if_pos h10] at h; exact absurd h (by simp)
      rw [if_neg h10] at h
      split at h
      · rename_i d tail
        by_cases h11 : pyIsDigit d = true
        · rw [if_pos h11] at h
          simp only [Except.error.injEq] at h
          exact .inr h.symm
        · rw [if_neg h11] at h; exact absurd h (by simp)
      · exact absurd h (by simp)
    · rw [if_neg h9] at h
      simp only [Except.error.injEq] at h
      exact .inl ⟨c, h.symm⟩

/-- Any successful run of the tokenizer loop produces a token list that ends
in exactly one end-of-input token, all tokens being good. -/
theorem tokenizeF_ok_spec : ∀ n (cs : List Char) ts, tokenizeF n cs = .ok ts →
    (∃ front, ts = front ++ [({ttype := "EOF", value := ""} : Token)]
      ∧ ∀ t ∈ front, t.ttype ≠ "EOF")
    ∧ ∀ t ∈ ts, tokGood t := by
  intro n
  induction n with
  | zero => intro cs ts h; exact absurd h (by simp [tokenizeF])
  | succ n ih =>
    intro cs ts h
    unfold tokenizeF at h
    split at h
    · exact absurd h (by simp)
    · rename_i t rest hnt
      obtain ⟨hspec, hgood⟩ := next_token_spec hnt
      by_cases he : t.ttype = "EOF"
      · rw [if_pos he] at h
        simp only [Except.ok.injEq] at h
        subst h
        rcases hspec with ⟨rfl, rfl⟩ | ⟨hne, _⟩
        · refine ⟨⟨[], rfl, by simp⟩, ?_⟩
          intro u hu
          rw [List.mem_singleton] at hu
          subst hu
          exact hgood
        · exact absurd he hne
      · rw [if_neg he] at h
        split at h
        · exact absurd h (by simp)
        · rename_i ts' hrec
          simp only [Except.ok.injEq] at h
          subst h
          obtain ⟨⟨front, rfl, hfr⟩, hgood'⟩ := ih rest ts' hrec
          refine ⟨⟨t :: front, rfl, ?_⟩, ?_⟩
          · intro u hu
            rcases List.mem_cons.mp hu with rfl | hu
            · exact he
            · exact hfr u hu
          · intro u hu
            rcases List.mem_cons.mp hu with rfl | hu
            · exact hgood
            · exact hgood' u hu

/-- With sufficient fuel the tokenizer loop fails only with one of the two
lexical-error messages of the scanner. -/
theorem tokenizeF_error_forms : ∀ n (cs : List Char) m, cs.length < n →
    tokenizeF n cs = .error m →
    (∃ c : Char, m = "Lexical error: Unexpected character: " ++ c.toString)
    ∨ m = "Lexical error: Invalid number format (leading zero)." := by
  intro n
  induction n with
  | zero => intro cs m hlen h; omega
  | succ n ih =>
    intro cs m hlen h
    unfold tokenizeF at h
    split at h
    · rename_i e hnt
      simp only [Except.error.injEq] at h
      subst h
      exact next_token_error_forms hnt
    · rename_i t rest hnt
      obtain ⟨hspec, _⟩ := next_token_spec hnt
      by_cases he : t.ttype = "EOF"
      · rw [if_pos he] at h; exact absurd h (by simp)
      · rw [if_neg he] at h
        split at h
        · rename_i e hrec
          simp only [Except.error.injEq] at h
          subst h
          rcases hspec with ⟨rfl, _⟩ | ⟨_, hlt⟩
          · exact absurd rfl he
          · exact ih rest _ (by omega) hrec
        · exact absurd h (by simp)

/-- `tokenize` only fails with one of the two lexical-error messages. -/
theorem tokenize_error_forms {text : String} {m : String}
    (h : tokenize text = .error m) :
    (∃ c : Char, m = "Lexical error: Unexpected character: " ++ c.toString)
    ∨ m = "Lexical error: Invalid number format (leading zero)." := by
  have hl : text.toList.length < text.length + 1 := by
    have he : text.toList.length = text.length := rfl
    omega
  exact tokenizeF_error_forms _ _ _ hl h

end Lexer

theorem wf_lit (k : Int) : wf (.vTup [.vStr "lit", .vInt k]) = true := rfl

theorem wf_var (s : String) : wf (.vTup [.vStr "var", .vStr s]) = true := rfl

theorem wf_un (t : String) (e : PyObj) (ht : t = "+" ∨ t = "-")
    (he : wf e = true) : wf (.vTup [.vStr t, e]) = true := by
  rcases ht with rfl | rfl <;> simp [wf, he]

theorem wf_bin (t : String) (l r : PyObj) (ht : t = "+" ∨ t = "-" ∨ t = "*")
    (hl : wf l = true) (hr : wf r = true) :
    wf (.vTup [.vStr t, l, r]) = true := by
  rcases ht with rfl | rfl | rfl <;> simp [wf, hl, hr]

namespace Parser

theorem peekT_mem {tokens : List Token} {pos : Nat} {t : Token}
    (h : peekT tokens pos = some t) : t ∈ tokens := by
  unfold peekT at h
  exact List.getElem?_mem h

theorem consume_spec {tokens : List Token} {pos : Nat} {want : Option String}
    {t : Token} {pos' : Nat} (h : consume tokens pos want = .ok (t, pos')) :
    peekT tokens pos = some t ∧ pos' = pos + 1 := by
  unfold consume at h
  split at h
  · exact absurd h (by simp)
  · rename_i u hpk
    split at h
    · simp only [Except.ok.injEq, Prod.mk.injEq] at h
      obtain ⟨rfl, rfl⟩ := h
      exact ⟨hpk, rfl⟩
    · rename_i ty
      split at h
      · simp only [Except.ok.injEq, Prod.mk.injEq] at h
        obtain ⟨rfl, rfl⟩ := h
        exact ⟨hpk, rfl⟩
      · exact absurd h (by simp)

/-- On a token list whose operator tokens carry their own character as value
(as all scanner outputs do), every expression node produced by the grammar
procedures is well-formed. Proved for all five mutually recursive
procedures simultaneously, by induction on the fuel. -/
theorem grammar_wf : ∀ n (tokens : List Token), (∀ t ∈ tokens, tokGood t) →
    (∀ pos r pos', fact n tokens pos = .ok (r, pos') → wf r = true)
    ∧ (∀ pos node r pos',
        termLoop n tokens pos node = .ok (r, pos') → wf node = true → wf r = true)
    ∧ (∀ pos r pos', term n tokens pos = .ok (r, pos') → wf r = true)
    ∧ (∀ pos node r pos',
        expLoop n tokens pos node = .ok (r, pos') → wf node = true → wf r = true)
    ∧ (∀ pos r pos', exp n tokens pos = .ok (r, pos') → wf r = true) := by
  intro n
  induction n with
  | zero =>
    intro tokens _
    exact ⟨fun pos r pos' h => absurd h (by simp [fact]),
           fun pos node r pos' h _ => absurd h (by simp [termLoop]),
           fun pos r pos' h => absurd h (by simp [term]),
           fun pos node r pos' h _ => absurd h (by simp [expLoop]),
           fun pos r pos' h => absurd h (by simp [exp])⟩
  | succ n ih =>
    intro tokens hg
    obtain ⟨ihf, ihtl, iht, ihel, ihe⟩ := ih tokens hg
    have hfact : ∀ pos r pos', fact (n + 1) tokens pos = .ok (r, pos') →
        wf r = true := by
      intro pos r pos' h
      unfold fact at h
      split at h
      · exact absurd h (by simp)
      · rename_i token hpk
        by_cases c1 : token.ttype = "("
        · rw [if_pos c1] at h
          split at h
          · exact absurd h (by simp)
          · rename_i u pos1 hc1
            split at h
            · exact absurd h (by simp)
            · rename_i node pos2 hexp
              split at h
              · exact absurd h (by simp)
              · rename_i v pos3 hc2
                simp only [Except.ok.injEq, Prod.mk.injEq] at h
                obtain ⟨rfl, rfl⟩ := h
                exact ihe _ _ _ hexp
        rw [if_neg c1] at h
        by_cases c2 : token.ttype = "+"
        · rw [if_pos c2] at h
          split at h
          · exact absurd h (by simp)
          · rename_i u pos1 hc1
            split at h
            · exact absurd h (by simp)
            · rename_i node pos2 hf
              simp only [Except.ok.injEq, Prod.mk.injEq] at h
              obtain ⟨rfl, rfl⟩ := h
              exact wf_un "+" node (.inl rfl) (ihf _ _ _ hf)
        rw [if_neg c2] at h
        by_cases c3 : token.ttype = "-"
        · rw [if_pos c3] at h
          split at h
          · exact absurd h (by simp)
          · rename_i u pos1 hc1
            split at h
            · exact absurd h (by simp)
            · rename_i node pos2 hf
              simp only [Except.ok.injEq, Prod.mk.injEq] at h
              obtain ⟨rfl, rfl⟩ := h
              exact wf_un "-" node (.inr rfl) (ihf _ _ _ hf)
        rw [if_neg c3] at h
        by_cases c4 : token.ttype = "LITERAL"
        · rw [if_pos c4] at h
          split at h
          · exact absurd h (by simp)
          · rename_i u pos1 hc1
            simp only [Except.ok.injEq, Prod.mk.injEq] at h
            obtain ⟨rfl, rfl⟩ := h
            exact wf_lit _
        rw [if_neg c4] at h
        by_cases c5 : token.ttype = "IDENTIFIER"
        · rw [if_pos c5] at h
          split at h
          · exact absurd h (by simp)
          · rename_i u pos1 hc1
            simp only [Except.ok.injEq, Prod.mk.injEq] at h
            obtain ⟨rfl, rfl⟩ := h
            exact wf_var _
        rw [if_neg c5] at h
        exact absurd h (by simp)
    have htermLoop : ∀ pos node r pos',
        termLoop (n + 1) tokens pos node = .ok (r, pos') → wf node = true →
        wf r = true := by
      intro pos node r pos' h hn
      unfold termLoop at h
      split at h
      · rename_i token hpk
        by_cases c1 : token.ttype = "*"
        · rw [if_pos c1] at h
          split at h
          · exact absurd h (by simp)
          · rename_i u pos1 hc
            split at h
            · exact absurd h (by simp)
            · rename_i right pos2 hf
              exact ihtl _ _ _ _ h
                (wf_bin "*" node right (.inr (.inr rfl)) hn (ihf _ _ _ hf))
        · rw [if_neg c1] at h
          simp only [Except.ok.injEq, Prod.mk.injEq] at h
          obtain ⟨rfl, rfl⟩ := h
          exact hn
      · simp only [Except.ok.injEq, Prod.mk.injEq] at h
        obtain ⟨rfl, rfl⟩ := h
        exact hn
    have hterm : ∀ pos r pos', term (n + 1) tokens pos = .ok (r, pos') →
        wf r = true := by
      intro pos r pos' h
      unfold term at h
      split at h
      · exact absurd h (by simp)
      · rename_i node pos1 hf
        exact ihtl _ _ _ _ h (ihf _ _ _ hf)
    have hexpLoop : ∀ pos node r pos',
        expLoop (n + 1) tokens pos node = .ok (r, pos') → wf node = true →
        wf r = true := by
      intro pos node r pos' h hn
      unfold expLoop at h
      split at h
      · rename_i token hpk
        by_cases c1 : token.ttype = "+" ∨ token.ttype = "-"
        · rw [if_pos c1] at h
          split at h
          · exact absurd h (by simp)
          · rename_i opTok pos1 hc
            split at h
            · exact absurd h (by simp)
            · rename_i right pos2 ht
              obtain ⟨hpk', rfl⟩ := consume_spec hc
              rw [hpk] at hpk'
              simp only [Option.some.injEq] at hpk'
              subst hpk'
              have hgd := hg token (peekT_mem hpk)
              have hval : token.value = "+" ∨ token.value = "-" := by
                rcases c1 with hA | hB
                · exact .inl (hgd.1 hA)
                · exact .inr (hgd.2 hB)
              refine ihel _ _ _ _ h ?_
              refine wf_bin token.value node right ?_ hn (iht _ _ _ ht)
              rcases hval with hv | hv
              · exact .inl hv
              · exact .inr (.inl hv)
        · rw [if_neg c1] at h
          simp only [Except.ok.injEq, Prod.mk.injEq] at h
          obtain ⟨rfl, rfl⟩ := h
          exact hn
      · simp only [Except.ok.injEq, Prod.mk.injEq] at h
        obtain ⟨rfl, rfl⟩ := h
        exact hn
    have hexp : ∀ pos r pos', exp (n + 1) tokens pos = .ok (r, pos') →
        wf r = true := by
      intro pos r pos' h
      unfold exp at h
      split at h
      · exact absurd h (by simp)
      · rename_i node pos1 hf
        exact ihel _ _ _ _ h (iht _ _ _ hf)
    exact ⟨hfact, htermLoop, hterm, hexpLoop, hexp⟩

theorem assignment_wf {n : Nat} {tokens : List Token} {pos : Nat} {a : Assign}
    {pos' : Nat} (hg : ∀ t ∈ tokens, tokGood t)
    (h : assignment n tokens pos = .ok (a, pos')) : wf a.exp = true := by
  unfold assignment at h
  split at h
  · exact absurd h (by simp)
  · rename_i lhs pos1 hc1
    split at h
    · exact absurd h (by simp)
    · rename_i u pos2 hc2
      split at h
      · exact absurd h (by simp)
      · rename_i e pos3 hexp
        split at h
        · exact absurd h (by simp)
        · rename_i v pos4 hc4
          simp only [Except.ok.injEq, Prod.mk.injEq] at h
          obtain ⟨rfl, rfl⟩ := h
          exact (grammar_wf n tokens hg).2.2.2.2 _ _ _ hexp

/-- Every assignment the parsing loop produces (from good tokens) carries a
well-formed expression tree. -/
theorem parseF_wf : ∀ n (tokens : List Token) pos asgs,
    (∀ t ∈ tokens, tokGood t) → parseF n tokens pos = .ok asgs →
    ∀ a ∈ asgs, wf a.exp = true := by
  intro n
  induction n with
  | zero => intro tokens pos asgs hg h; exact absurd h (by simp [parseF])
  | succ n ih =>
    intro tokens pos asgs hg h
    unfold parseF at h
    split at h
    · simp only [Except.ok.injEq] at h
      subst h
      simp
    · rename_i t hpk
      by_cases c1 : t.ttype = "EOF"
      · rw [if_pos c1] at h
        simp only [Except.ok.injEq] at h
        subst h
        simp
      · rw [if_neg c1] at h
        split at h
        · exact absurd h (by simp)
        · rename_i a pos1 ha
          split at h
          · exact absurd h (by simp)
          · rename_i rest hrec
            simp only [Except.ok.injEq] at h
            subst h
            intro x hx
            rcases List.mem_cons.mp hx with rfl | hx
            · exact assignment_wf hg ha
            · exact ih tokens pos1 rest hg hrec x hx

end Parser

/-- Inversion for `wf` on tuples: the only well-formed tuple shapes are the
four node kinds the parser emits. -/
theorem wf_tup_shapes {a : List PyObj} (h : wf (.vTup a) = true) :
    (∃ k : Int, a = [.vStr "lit", .vInt k])
    ∨ (∃ s, a = [.vStr "var", .vStr s])
    ∨ (∃ t e1, (t = "+" ∨ t = "-") ∧ a = [.vStr t, e1] ∧ wf e1 = true)
    ∨ (∃ t l r, (t = "+" ∨ t = "-" ∨ t = "*") ∧ a = [.vStr t, l, r]
        ∧ wf l = true ∧ wf r = true) := by
  unfold wf at h
  split at h
  · rename_i heq
    injection heq with hl
    exact .inl ⟨_, hl⟩
  · rename_i heq
    injection heq with hl
    exact .inr (.inl ⟨_, hl⟩)
  · rename_i heq
    injection heq with hl
    exact .inr (.inr (.inl ⟨"+", _, .inl rfl, hl, h⟩))
  · rename_i heq
    injection heq with hl
    exact .inr (.inr (.inl ⟨"-", _, .inr rfl, hl, h⟩))
  · rename_i heq
    injection heq with hl
    exact .inr (.inr (.inr ⟨"+", _, _, .inl rfl, hl, (Bool.and_eq_true _ _).mp h⟩))
  · rename_i heq
    injection heq with hl
    exact .inr (.inr (.inr ⟨"-", _, _, .inr (.inl rfl), hl,
      (Bool.and_eq_true _ _).mp h⟩))
  · rename_i heq
    injection heq with hl
    exact .inr (.inr (.inr ⟨"*", _, _, .inr (.inr rfl), hl,
      (Bool.and_eq_true _ _).mp h⟩))
  · exact absurd h (by simp)

namespace Interpreter

theorem envLookup_wf {env : Env} (hw : envWF env) {n : String} {v : PyObj}
    (h : envLookup env n = some v) : ∃ k : Int, v = .vInt k := by
  induction env with
  | nil => simp [envLookup] at h
  | cons p rest ih =>
    rcases p with ⟨pk, pv⟩
    unfold envLookup at h
    split at h
    · simp only [Option.some.injEq] at h
      subst h
      exact hw (pk, pv) (by simp)
    · exact ih (fun q hq => hw q (List.mem_cons_of_mem _ hq)) h

/-- Evaluating any well-formed node in an integer-valued environment either
returns an integer or fails with an uninitialized-variable error; in
particular it never reaches the evaluator's defensive branches. -/
theorem eval_wf {env : Env} (he : envWF env) :
    ∀ e : PyObj, wf e = true →
    (∃ k : Int, eval_exp env e = .ok (.vInt k))
    ∨ (∃ x, eval_exp env e = .error ("Uninitialized variable: " ++ x)) := by
  intro e
  induction e using eval_exp.induct env with
  | case1 x tail =>
    intro hwf
    rcases wf_tup_shapes hwf with ⟨k, hk⟩ | ⟨s, hs⟩ | ⟨t, e1, ht, heq, _⟩
      | ⟨t, l, r, ht, heq, _, _⟩
    · simp only [List.cons.injEq] at hk
      obtain ⟨-, rfl, rfl⟩ := hk
      exact .inl ⟨k, rfl⟩
    · simp only [List.cons.injEq] at hs
      obtain ⟨hbad, -⟩ := hs
      exact absurd hbad (by simp)
    · simp only [List.cons.injEq] at heq
      obtain ⟨hbad, -⟩ := heq
      injection hbad with hbad
      rcases ht with rfl | rfl <;> simp at hbad
    · simp only [List.cons.injEq] at heq
      obtain ⟨hbad, -⟩ := heq
      injection hbad with hbad
      rcases ht with rfl | rfl | rfl <;> simp at hbad
  | case2 =>
    intro hwf
    exact absurd hwf (by simp [wf])
  | case3 tail name v hlk =>
    intro _
    obtain ⟨k, rfl⟩ := envLookup_wf he hlk
    exact .inl ⟨k, by simp [eval_exp, hlk]⟩
  | case4 tail name hlk =>
    intro _
    exact .inr ⟨name, by simp [eval_exp, hlk]⟩
  | case5 tail other hno =>
    intro _
    exact .inr ⟨pyStr other, by
      rcases other with s | k | l
      · exact absurd rfl (hno s)
      · simp [eval_exp]
      · simp [eval_exp]⟩
  | case6 =>
    intro hwf
    exact absurd hwf (by simp [wf])
  | case7 e1 ih =>
    intro hwf
    have h1 : wf e1 = true := hwf
    rcases ih h1 with ⟨k, hk⟩ | ⟨x, hx⟩
    · exact .inl ⟨k, by simp only [eval_exp]; rw [hk]⟩
    · exact .inr ⟨x, by simp only [eval_exp]; rw [hx]⟩
  | case8 e1 e heval ih =>
    intro hwf
    have h1 : wf e1 = true := hwf
    rcases ih h1 with ⟨k, hk⟩ | ⟨x, hx⟩
    · rw [heval] at hk; exact absurd hk (by simp)
    · rw [heval] at hx
      simp only [Except.error.injEq] at hx
      subst hx
      exact .inr ⟨x, by simp [eval_exp, heval]⟩
  | case9 e1 v heval ih =>
    intro hwf
    have h1 : wf e1 = true := hwf
    rcases ih h1 with ⟨k, hk⟩ | ⟨x, hx⟩
    · rw [heval] at hk
      simp only [Except.ok.injEq] at hk
      subst hk
      exact .inl ⟨-k, by simp [eval_exp, heval, pyNeg]⟩
    · rw [heval] at hx; exact absurd hx (by simp)
  | case10 l r e hl ihl =>
    intro hwf
    have hlr : (wf l && wf r) = true := hwf
    obtain ⟨h1, h2⟩ := (Bool.and_eq_true _ _).mp hlr
    rcases ihl h1 with ⟨k, hk⟩ | ⟨x, hx⟩
    · rw [hl] at hk; exact absurd hk (by simp)
    · rw [hl] at hx
      simp only [Except.error.injEq] at hx
      subst hx
      exact .inr ⟨x, by simp [eval_exp, hl]⟩
  | case11 l r v hl e hr ihl ihr =>
    intro hwf
    have hlr : (wf l && wf r) = true := hwf
    obtain ⟨h1, h2⟩ := (Bool.and_eq_true _ _).mp hlr
    rcases ihr h2 with ⟨k, hk⟩ | ⟨x, hx⟩
    · rw [hr] at hk; exact absurd hk (by simp)
    · rw [hr] at hx
      simp only [Except.error.injEq] at hx
      subst hx
      exact .inr ⟨x, by simp [eval_exp, hl, hr]⟩
  | case12 l r v hl v2 hr ihl ihr =>
    intro hwf
    have hlr : (wf l && wf r) = true := hwf
    obtain ⟨h1, h2⟩ := (Bool.and_eq_true _ _).mp hlr
    obtain ⟨a, ha⟩ : ∃ a : Int, v = .vInt a := by
      rcases ihl h1 with ⟨k, hk⟩ | ⟨x, hx⟩
      · rw [hl] at hk
        simp only [Except.ok.injEq] at hk
        exact ⟨k, hk⟩
      · rw [hl] at hx; exact absurd hx (by simp)
    obtain ⟨b, hb⟩ : ∃ b : Int, v2 = .vInt b := by
      rcases ihr h2 with ⟨k, hk⟩ | ⟨x, hx⟩
      · rw [hr] at hk
        simp only [Except.ok.injEq] at hk
        exact ⟨k, hk⟩
      · rw [hr] at hx; exact absurd hx (by simp)
    subst ha hb
    exact .inl ⟨a + b, by simp [eval_exp, hl, hr, pyAdd]⟩
  | case13 l r e hl ihl =>
    intro hwf
    have hlr : (wf l && wf r) = true := hwf
    obtain ⟨h1, h2⟩ := (Bool.and_eq_true _ _).mp hlr
    rcases ihl h1 with ⟨k, hk⟩ | ⟨x, hx⟩
    · rw [hl] at hk; exact absurd hk (by simp)
    · rw [hl] at hx
      simp only [Except.error.injEq] at hx
      subst hx
      exact .inr ⟨x, by simp [eval_exp, hl]⟩
  | case14 l r v hl e hr ihl ihr =>
    intro hwf
    have hlr : (wf l && wf r) = true := hwf
    obtain ⟨h1, h2⟩ := (Bool.and_eq_true _ _).mp hlr
    rcases ihr h2 with ⟨k, hk⟩ | ⟨x, hx⟩
    · rw [hr] at hk; exact absurd hk (by simp)
    · rw [hr] at hx
      simp only [Except.error.injEq] at hx
      subst hx
      exact .inr ⟨x, by simp [eval_exp, hl, hr]⟩
  | case15 l r v hl v2 hr ihl ihr =>
    intro hwf
    have hlr : (wf l && wf r) = true := hwf
    obtain ⟨h1, h2⟩ := (Bool.and_eq_true _ _).mp hlr
    obtain ⟨a, ha⟩ : ∃ a : Int, v = .vInt a := by
      rcases ihl h1 with ⟨k, hk⟩ | ⟨x, hx⟩
      · rw [hl] at hk
        simp only [Except.ok.injEq] at hk
        exact ⟨k, hk⟩
      · rw [hl] at hx; exact absurd hx (by simp)
    obtain ⟨b, hb⟩ : ∃ b : Int, v2 = .vInt b := by
      rcases ihr h2 with ⟨k, hk⟩ | ⟨x, hx⟩
      · rw [hr] at hk
        simp only [Except.ok.injEq] at hk
        exact ⟨k, hk⟩
      · rw [hr] at hx; exact absurd hx (by simp)
    subst ha hb
    exact .inl ⟨a - b, by simp [eval_exp, hl, hr, pySub]⟩
  | case16 l r e hl ihl =>
    intro hwf
    have hlr : (wf l && wf r) = true := hwf
    obtain ⟨h1, h2⟩ := (Bool.and_eq_true _ _).mp hlr
    rcases ihl h1 with ⟨k, hk⟩ | ⟨x, hx⟩
    · rw [hl] at hk; exact absurd hk (by simp)
    · rw [hl] at hx
      simp only [Except.error.injEq] at hx
      subst hx
      exact .inr ⟨x, by simp [eval_exp, hl]⟩
  | case17 l r v hl e hr ihl ihr =>
    intro hwf
    have hlr : (wf l && wf r) = true := hwf
    obtain ⟨h1, h2⟩ := (Bool.and_eq_true _ _).mp hlr
    rcases ihr h2 with ⟨k, hk⟩ | ⟨x, hx⟩
    · rw [hr] at hk; exact absurd hk (by simp)
    · rw [hr] at hx
      simp only [Except.error.injEq] at hx
      subst hx
      exact .inr ⟨x, by simp [eval_exp, hl, hr]⟩
  | case18 l r v hl v2 hr ihl ihr =>
    intro hwf
    have hlr : (wf l && wf r) = true := hwf
    obtain ⟨h1, h2⟩ := (Bool.and_eq_true _ _).mp hlr
    obtain ⟨a, ha⟩ : ∃ a : Int, v = .vInt a := by
      rcases ihl h1 with ⟨k, hk⟩ | ⟨x, hx⟩
      · rw [hl] at hk
        simp only [Except.ok.injEq] at hk
        exact ⟨k, hk⟩
      · rw [hl] at hx; exact absurd hx (by simp)
    obtain ⟨b, hb⟩ : ∃ b : Int, v2 = .vInt b := by
      rcases ihr h2 with ⟨k, hk⟩ | ⟨x, hx⟩
      · rw [hr] at hk
        simp only [Except.ok.injEq] at hk
        exact ⟨k, hk⟩
      · rw [hr] at hx; exact absurd hx (by simp)
    subst ha hb
    exact .inl ⟨a * b, by simp [eval_exp, hl, hr, pyMul]⟩
  | case19 =>
    intro hwf
    exact absurd hwf (by simp [wf])
  | case20 a hx1 hx2 hx3 hx4 hx5 hx6 hx7 hx8 hx9 hx10 =>
    intro hwf
    exfalso
    rcases wf_tup_shapes hwf with ⟨k, rfl⟩ | ⟨s, rfl⟩ | ⟨t, e1, ht, rfl, _⟩
      | ⟨t, l, r, ht, rfl, _, _⟩
    · exact hx1 _ _ rfl
    · exact hx3 _ _ rfl
    · rcases ht with rfl | rfl
      · exact hx5 _ rfl
      · exact hx6 _ rfl
    · rcases ht with rfl | rfl | rfl
      · exact hx7 _ _ rfl
      · exact hx8 _ _ rfl
      · exact hx9 _ _ rfl
  | case21 t hx1 hx2 hx3 hx4 hx5 hx6 hx7 hx8 hx9 hx10 hx11 =>
    intro hwf
    rcases t with s | k | l
    · exact absurd hwf (by simp [wf])
    · exact absurd hwf (by simp [wf])
    · exact absurd (hx11 l rfl) id

end Interpreter

namespace Interpreter

theorem charToNat_inj {a b : Char} (h : a.toNat = b.toNat) : a = b :=
  Char.ext (UInt32.ext h)

theorem strLt_asymm : ∀ as bs, strLt as bs = true → strLt bs as = false := by
  intro as
  induction as with
  | nil =>
    intro bs h
    cases bs with
    | nil => simp [strLt] at h
    | cons b bs => simp [strLt]
  | cons a as ih =>
    intro bs h
    cases bs with
    | nil => simp [strLt] at h
    | cons b bs =>
      unfold strLt at h ⊢
      by_cases h1 : a.toNat < b.toNat
      · rw [if_pos h1] at h
        rw [if_neg (by omega : ¬ b.toNat < a.toNat), if_pos h1]
      · rw [if_neg h1] at h
        by_cases h2 : b.toNat < a.toNat
        · rw [if_pos h2] at h
          exact absurd h (by simp)
        · rw [if_neg h2] at h
          rw [if_neg h2, if_neg h1]
          exact ih bs h

theorem strLt_conn : ∀ as bs, strLt as bs = false → strLt bs as = false →
    as = bs := by
  intro as
  induction as with
  | nil =>
    intro bs h1 h2
    cases bs with
    | nil => rfl
    | cons b bs => simp [strLt] at h1
  | cons a as ih =>
    intro bs h1 h2
    cases bs with
    | nil => simp [strLt] at h2
    | cons b bs =>
      unfold strLt at h1 h2
      by_cases hab : a.toNat < b.toNat
      · rw [if_pos hab] at h1
        exact absurd h1 (by simp)
      · rw [if_neg hab] at h1
        by_cases hba : b.toNat < a.toNat
        · rw [if_pos hba] at h2
          exact absurd h2 (by simp)
        · rw [if_neg hba] at h1
          have hc : a = b := charToNat_inj (by omega)
          rw [if_neg hba, if_neg hab] at h2
          rw [hc, ih bs h1 h2]

theorem strLt_le_trans : ∀ as bs cs : List Char, strLt as bs = false →
    strLt bs cs = false → strLt as cs = false := by
  intro as
  induction as with
  | nil =>
    intro bs cs h1 h2
    cases bs with
    | nil => exact h2
    | cons b bs => simp [strLt] at h1
  | cons a as ih =>
    intro bs cs h1 h2
    cases bs with
    | nil =>
      cases cs with
      | nil => simp [strLt]
      | cons c cs => simp [strLt] at h2
    | cons b bs =>
      cases cs with
      | nil => simp [strLt]
      | cons c cs =>
        unfold strLt at h1 h2 ⊢
        by_cases hab : a.toNat < b.toNat
        · rw [if_pos hab] at h1
          exact absurd h1 (by simp)
        rw [if_neg hab] at h1
        by_cases hbc : b.toNat < c.toNat
        · rw [if_pos hbc] at h2
          exact absurd h2 (by simp)
        rw [if_neg hbc] at h2
        by_cases hac : a.toNat < c.toNat
        · omega
        rw [if_neg hac]
        by_cases hca : c.toNat < a.toNat
        · rw [if_pos hca]
        · rw [if_neg hca]
          by_cases hba : b.toNat < a.toNat
          · omega
          by_cases hcb : c.toNat < b.toNat
          · omega
          rw [if_neg hba] at h1
          rw [if_neg hcb] at h2
          exact ih bs cs h1 h2

theorem strLe_trans {a b c : String} (h1 : strLe a b = true)
    (h2 : strLe b c = true) : strLe a c = true := by
  unfold strLe at h1 h2 ⊢
  simp only [Bool.not_eq_true'] at h1 h2 ⊢
  exact strLt_le_trans _ _ _ h2 h1

theorem strLe_of_not {a b : String} (h : strLe a b = false) :
    strLe b a = true := by
  unfold strLe at h ⊢
  simp only [Bool.not_eq_false'] at h
  simp only [Bool.not_eq_true']
  exact strLt_asymm _ _ h

theorem strLt_of_le_of_ne {a b : String} (h1 : strLe a b = true) (h2 : a ≠ b) :
    strLt a.data b.data = true := by
  unfold strLe at h1
  simp only [Bool.not_eq_true'] at h1
  cases hab : strLt a.data b.data
  · exact absurd (String.ext (strLt_conn _ _ hab h1)) h2
  · rfl

theorem insertKey_perm (k : String) : ∀ l, (insertKey k l).Perm (k :: l) := by
  intro l
  induction l with
  | nil => exact List.Perm.refl _
  | cons x xs ih =>
    unfold insertKey
    by_cases h : strLe k x = true
    · rw [if_pos h]
    · rw [if_neg h]
      exact (ih.cons x).trans (List.Perm.swap k x xs)

theorem sortKeys_perm : ∀ l, (sortKeys l).Perm l := by
  intro l
  induction l with
  | nil => exact List.Perm.refl _
  | cons x xs ih =>
    unfold sortKeys
    exact (insertKey_perm x (sortKeys xs)).trans (ih.cons x)

theorem insertKey_sorted (k : String) :
    ∀ l, l.Pairwise (fun a b => strLe a b = true) →
    (insertKey k l).Pairwise (fun a b => strLe a b = true) := by
  intro l
  induction l with
  | nil => intro _; simp [insertKey]
  | cons x xs ih =>
    intro hp
    obtain ⟨hx, hxs⟩ := List.pairwise_cons.mp hp
    unfold insertKey
    by_cases h : strLe k x = true
    · rw [if_pos h]
      refine List.pairwise_cons.mpr ⟨?_, hp⟩
      intro y hy
      rcases List.mem_cons.mp hy with rfl | hy
      · exact h
      · exact strLe_trans h (hx y hy)
    · rw [if_neg h]
      refine List.pairwise_cons.mpr ⟨?_, ih hxs⟩
      intro y hy
      rcases List.mem_cons.mp ((insertKey_perm k xs).mem_iff.mp hy) with rfl | hy
      · exact strLe_of_not (by simpa using h)
      · exact hx y hy

theorem sortKeys_sorted : ∀ l, (sortKeys l).Pairwise (fun a b => strLe a b = true) := by
  intro l
  induction l with
  | nil => simp [sortKeys]
  | cons x xs ih =>
    unfold sortKeys
    exact insertKey_sorted x (sortKeys xs) ih

/-- A weakly sorted list of distinct strings is strictly sorted in the
code-point lexicographic order. -/
theorem sorted_strict {l : List String}
    (hs : l.Pairwise (fun a b => strLe a b = true)) (hn : l.Nodup) :
    l.Pairwise (fun a b => strLt a.data b.data = true) :=
  (hs.and hn).imp fun h => strLt_of_le_of_ne h.1 h.2

theorem envInsert_keys_mem : ∀ (env : Env) (k : String) (v : PyObj) (x : String),
    x ∈ (envInsert env k v).map Prod.fst ↔ x ∈ env.map Prod.fst ∨ x = k := by
  intro env k v
  induction env with
  | nil => intro x; simp [envInsert]
  | cons p rest ih =>
    intro x
    rcases p with ⟨pk, pv⟩
    unfold envInsert
    by_cases h : pk = k
    · rw [if_pos h]
      subst h
      simp only [List.map_cons, List.mem_cons]
      constructor
      · rintro (rfl | hx)
        · exact .inr rfl
        · exact .inl (.inr hx)
      · rintro ((rfl | hx) | rfl)
        · exact .inl rfl
        · exact .inr hx
        · exact .inl rfl
    · rw [if_neg h]
      simp only [List.map_cons, List.mem_cons, ih x]
      tauto

theorem envInsert_keys_nodup : ∀ (env : Env) (k : String) (v : PyObj),
    (env.map Prod.fst).Nodup → ((envInsert env k v).map Prod.fst).Nodup := by
  intro env k v
  induction env with
  | nil => intro _; simp [envInsert]
  | cons p rest ih =>
    intro hn
    rcases p with ⟨pk, pv⟩
    simp only [List.map_cons, List.nodup_cons] at hn
    obtain ⟨hpk, hrest⟩ := hn
    unfold envInsert
    by_cases h : pk = k
    · rw [if_pos h]
      subst h
      simp only [List.map_cons, List.nodup_cons]
      exact ⟨hpk, hrest⟩
    · rw [if_neg h]
      simp only [List.map_cons, List.nodup_cons]
      refine ⟨?_, ih hrest⟩
      intro hx
      rcases (envInsert_keys_mem rest k v pk).mp hx with hx | rfl
      · exact hpk hx
      · exact h rfl

theorem runAssigns_nodup : ∀ (asgs : List Assign) (env env' : Env),
    (env.map Prod.fst).Nodup → runAssigns asgs env = .ok env' →
    (env'.map Prod.fst).Nodup := by
  intro asgs
  induction asgs with
  | nil =>
    intro env env' hn h
    simp only [runAssigns, Except.ok.injEq] at h
    subst h
    exact hn
  | cons a rest ih =>
    intro env env' hn h
    unfold runAssigns at h
    split at h
    · exact absurd h (by simp)
    · exact ih _ _ (envInsert_keys_nodup env a.target _ hn) h

theorem envLookup_envInsert_self : ∀ (env : Env) (k : String) (v : PyObj),
    envLookup (envInsert env k v) k = some v := by
  intro env k v
  induction env with
  | nil => simp [envInsert, envLookup]
  | cons p rest ih =>
    rcases p with ⟨pk, pv⟩
    unfold envInsert
    by_cases h : pk = k
    · rw [if_pos h]
      simp [envLookup]
    · rw [if_neg h]
      unfold envLookup
      rw [if_neg h]
      exact ih

theorem envLookup_envInsert_other : ∀ (env : Env) (k : String) (v : PyObj)
    (m : String), m ≠ k → envLookup (envInsert env k v) m = envLookup env m := by
  intro env k v
  induction env with
  | nil =>
    intro m hm
    unfold envInsert envLookup
    rw [if_neg (fun hh => hm hh.symm)]
    rfl
  | cons p rest ih =>
    intro m hm
    rcases p with ⟨pk, pv⟩
    unfold envInsert
    by_cases h : pk = k
    · rw [if_pos h]
      subst h
      unfold envLookup
      rw [if_neg (fun h => hm h.symm), if_neg (fun h => hm h.symm)]
    · rw [if_neg h]
      unfold envLookup
      by_cases h2 : pk = m
      · rw [if_pos h2, if_pos h2]
      · rw [if_neg h2, if_neg h2]
        exact ih m hm

end Interpreter

/-- Claim C1: running the whole pipeline (tokenize, parse, run) on the input
text `x = 1;\ny = 2;\nz = ---(x+y)*(x+-y);` succeeds and produces the final
bindings `x = 1`, `y = 2`, `z = 3`, printed in that order. -/
theorem claim_c1_end_to_end :
    run_program "x = 1;\ny = 2;\nz = ---(x+y)*(x+-y);" =
      .ok ["x = 1", "y = 2", "z = 3"] := rfl

/-- Claim C2, counterexample: the scanner's lexical error message does not
report the character position at which the error was detected — the inputs
`@` and `  @` put the offending character at positions 0 and 2 respectively,
yet both runs produce the identical message, so the message cannot carry the
position. -/
theorem claim_c2_counterexample :
    Lexer.tokenize "@" = .error "Lexical error: Unexpected character: @"
    ∧ Lexer.tokenize "  @" = .error "Lexical error: Unexpected character: @" :=
  ⟨rfl, rfl⟩

/-- Claim C2, amended: whenever the scanner fails, the lexical error names
the offending character or names the invalid-number condition; the message
does not include the character position. -/
theorem claim_c2_error_naming :
    ∀ (text m : String), Lexer.tokenize text = .error m →
    (∃ c : Char, m = "Lexical error: Unexpected character: " ++ c.toString)
    ∨ m = "Lexical error: Invalid number format (leading zero)." :=
  fun _ _ h => Lexer.tokenize_error_forms h

theorem claim_c2_witness :
    (∃ c : Char, "Lexical error: Unexpected character: @" =
      "Lexical error: Unexpected character: " ++ c.toString)
    ∨ "Lexical error: Unexpected character: @" =
      "Lexical error: Invalid number format (leading zero)." :=
  claim_c2_error_naming "@" _ rfl

/-- Claim C3: for every input text on which tokenize succeeds, the returned
token sequence ends with exactly one end-of-input token and contains no
end-of-input token at any earlier position. -/
theorem claim_c3_eof_unique :
    ∀ (text : String) (ts : List Token), Lexer.tokenize text = .ok ts →
    ∃ front, ts = front ++ [({ttype := "EOF", value := ""} : Token)]
      ∧ ∀ t ∈ front, t.ttype ≠ "EOF" :=
  fun _ ts h => (Lexer.tokenizeF_ok_spec _ _ ts h).1

theorem claim_c3_witness :
    ∃ front,
      [({ttype := "IDENTIFIER", value := "x"} : Token),
       {ttype := "EOF", value := ""}] =
        front ++ [({ttype := "EOF", value := ""} : Token)]
      ∧ ∀ t ∈ front, t.ttype ≠ "EOF" :=
  claim_c3_eof_unique "x" _ rfl

/-- Claim C4: binary `+`, `-`, `*` are left-associative — `5 - 2 - 1` parses
as `(5 - 2) - 1`, so the program yields `x = 2`, not `x = 4`. -/
theorem claim_c4_left_assoc :
    run_program "x = 5 - 2 - 1;" = .ok ["x = 2"]
    ∧ run_program "x = 5 - 2 - 1;" ≠ .ok ["x = 4"]
    ∧ (do
        let ts ← Lexer.tokenize "x = 5 - 2 - 1;"
        Parser.parse ts : Except String (List Assign)) =
      .ok [⟨"x", .vTup [.vStr "-",
             .vTup [.vStr "-", .vTup [.vStr "lit", .vInt 5],
               .vTup [.vStr "lit", .vInt 2]],
             .vTup [.vStr "lit", .vInt 1]]⟩] := by
  refine ⟨rfl, ?_, rfl⟩
  intro h
  rw [show run_program "x = 5 - 2 - 1;" = .ok ["x = 2"] from rfl] at h
  simp at h

/-- Claim C5: multiplication binds tighter than addition, and parentheses
override that precedence. -/
theorem claim_c5_precedence :
    run_program "x = 2 + 3 * 4;" = .ok ["x = 14"]
    ∧ run_program "x = (2 + 3) * 4;" = .ok ["x = 20"] := ⟨rfl, rfl⟩

/-- Claim C6: scanning `01` fails with the leading-zero lexical error, while
`0` alone is scanned as an integer-literal token whose value is 0. -/
theorem claim_c6_leading_zero :
    Lexer.tokenize "01" =
      .error "Lexical error: Invalid number format (leading zero)."
    ∧ Lexer.tokenize "0" =
        .ok [{ttype := "LITERAL", value := "0"}, {ttype := "EOF", value := ""}]
    ∧ int_of_str "0" = 0 := ⟨rfl, rfl, rfl⟩

/-- Claim C7: evaluating a variable node whose name has no binding fails
with an evaluation error naming the uninitialized variable, never a default
value; in particular the program `y = x;` fails. -/
theorem claim_c7_uninitialized :
    (∀ (env : Interpreter.Env) (n : String), Interpreter.envLookup env n = none →
      Interpreter.eval_exp env (.vTup [.vStr "var", .vStr n]) =
        .error ("Uninitialized variable: " ++ n))
    ∧ run_program "y = x;" = .error "Uninitialized variable: x" := by
  refine ⟨?_, rfl⟩
  intro env n h
  simp [Interpreter.eval_exp, h]

theorem claim_c7_witness :
    Interpreter.eval_exp [] (.vTup [.vStr "var", .vStr "q"]) =
      .error ("Uninitialized variable: " ++ "q") :=
  claim_c7_uninitialized.1 [] "q" rfl

/-- Claim C8: on success the final report has exactly one line per distinct
assigned variable, formatted `name = value`, in strictly ascending
lexicographic order by name regardless of assignment order; for
`b = 1; a = 2;` the output is `a = 2` then `b = 1`. -/
theorem claim_c8_sorted_report :
    run_program "b = 1; a = 2;" = .ok ["a = 2", "b = 1"]
    ∧ ∀ (asgs : List Assign) (env : Interpreter.Env),
        Interpreter.runAssigns asgs [] = .ok env →
        ∃ ks : List String,
          ks.Perm (env.map Prod.fst)
          ∧ ks.Pairwise (fun a b => Interpreter.strLt a.data b.data = true)
          ∧ Interpreter.report env =
              ks.map (fun k => k ++ " = " ++
                Interpreter.pyStr ((Interpreter.envLookup env k).getD (.vInt 0))) := by
  refine ⟨rfl, ?_⟩
  intro asgs env h
  have hn : (env.map Prod.fst).Nodup :=
    Interpreter.runAssigns_nodup asgs [] env (by simp) h
  refine ⟨Interpreter.sortKeys (env.map Prod.fst),
    Interpreter.sortKeys_perm _, ?_, rfl⟩
  exact Interpreter.sorted_strict (Interpreter.sortKeys_sorted _)
    ((Interpreter.sortKeys_perm _).nodup_iff.mpr hn)

theorem claim_c8_witness :
    ∃ ks : List String,
      ks.Perm (([("b", PyObj.vInt 1), ("a", PyObj.vInt 2)] : Interpreter.Env).map
        Prod.fst)
      ∧ ks.Pairwise (fun a b => Interpreter.strLt a.data b.data = true)
      ∧ Interpreter.report [("b", PyObj.vInt 1), ("a", PyObj.vInt 2)] =
          ks.map (fun k => k ++ " = " ++
            Interpreter.pyStr
              ((Interpreter.envLookup [("b", PyObj.vInt 1), ("a", PyObj.vInt 2)]
                k).getD (.vInt 0))) :=
  claim_c8_sorted_report.2
    [⟨"b", .vTup [.vStr "lit", .vInt 1]⟩, ⟨"a", .vTup [.vStr "lit", .vInt 2]⟩]
    [("b", PyObj.vInt 1), ("a", PyObj.vInt 2)] rfl

/-- Claim C9: each assignment evaluates its right-hand side in the
environment produced by the earlier statements, and only afterwards binds
the target (inserting or overwriting); `x = 1; x = x + 1;` yields `x = 2`. -/
theorem claim_c9_sequencing :
    (∀ (n : String) (e : PyObj) (rest : List Assign) (env : Interpreter.Env),
      Interpreter.runAssigns (⟨n, e⟩ :: rest) env =
        match Interpreter.eval_exp env e with
        | .error msg => .error msg
        | .ok v => Interpreter.runAssigns rest (Interpreter.envInsert env n v))
    ∧ (∀ (env : Interpreter.Env) (n : String) (v : PyObj),
        Interpreter.envLookup (Interpreter.envInsert env n v) n = some v)
    ∧ (∀ (env : Interpreter.Env) (n : String) (v : PyObj) (m : String), m ≠ n →
        Interpreter.envLookup (Interpreter.envInsert env n v) m =
          Interpreter.envLookup env m)
    ∧ run_program "x = 1; x = x + 1;" = .ok ["x = 2"] :=
  ⟨fun _ _ _ _ => rfl, Interpreter.envLookup_envInsert_self,
   fun env n v m hm => Interpreter.envLookup_envInsert_other env n v m hm, rfl⟩

theorem claim_c9_witness :
    Interpreter.envLookup
      (Interpreter.envInsert [("a", PyObj.vInt 1)] "a" (PyObj.vInt 2)) "b" =
      Interpreter.envLookup [("a", PyObj.vInt 1)] "b" :=
  claim_c9_sequencing.2.2.1 [("a", PyObj.vInt 1)] "a" (PyObj.vInt 2) "b"
    (by decide)

/-- Claim C10: every AST node produced by the parser from a token list the
scanner returned is one of the well-formed node shapes, and evaluating it
never reaches the defensive branches `Invalid AST node.` and
`Unknown node structure in evaluation.` (in any integer-valued environment,
the only possible evaluation error is the uninitialized-variable one). -/
theorem claim_c10_defensive_unreachable :
    ∀ (text : String) (ts : List Token) (fuel : Nat) (asgs : List Assign),
      Lexer.tokenize text = .ok ts → Parser.parseF fuel ts 0 = .ok asgs →
      ∀ a ∈ asgs, wf a.exp = true
        ∧ ∀ (env : Interpreter.Env), envWF env →
            ∀ m, Interpreter.eval_exp env a.exp = .error m →
              m ≠ "Invalid AST node."
              ∧ m ≠ "Unknown node structure in evaluation." := by
  intro text ts fuel asgs htok hparse a ha
  have hgood : ∀ t ∈ ts, tokGood t := (Lexer.tokenizeF_ok_spec _ _ _ htok).2
  have hwf : wf a.exp = true := Parser.parseF_wf fuel ts 0 asgs hgood hparse a ha
  refine ⟨hwf, ?_⟩
  intro env henv m hm
  rcases Interpreter.eval_wf henv a.exp hwf with ⟨k, hk⟩ | ⟨x, hx⟩
  · rw [hm] at hk
    exact absurd hk (by simp)
  · rw [hm] at hx
    simp only [Except.error.injEq] at hx
    subst hx
    constructor
    · intro hq
      have hl := congrArg String.length hq
      rw [String.length_append] at hl
      have h1 : ("Uninitialized variable: " : String).length = 24 := rfl
      have h2 : ("Invalid AST node." : String).length = 17 := rfl
      omega
    · intro hq
      have hd := congrArg String.data hq
      rw [String.data_append] at hd
      simp at hd

theorem claim_c10_witness :
    wf (PyObj.vTup [.vStr "var", .vStr "x"]) = true
    ∧ "Uninitialized variable: x" ≠ "Invalid AST node."
    ∧ "Uninitialized variable: x" ≠ "Unknown node structure in evaluation." := by
  have h := claim_c10_defensive_unreachable "y = x;"
    [{ttype := "IDENTIFIER", value := "y"}, {ttype := "=", value := "="},
     {ttype := "IDENTIFIER", value := "x"}, {ttype := ";", value := ";"},
     {ttype := "EOF", value := ""}] 20
    [⟨"y", PyObj.vTup [.vStr "var", .vStr "x"]⟩] rfl rfl
    ⟨"y", PyObj.vTup [.vStr "var", .vStr "x"]⟩ (by simp)
  exact ⟨h.1, h.2 [] (by intro p hp; simp at hp) "Uninitialized variable: x" rfl⟩
